import Mathlib

/-!
Verification of the BYD-Interfaz reconciliation engine.

This file gives a shallow embedding, in Lean 4, of the pure computational core
of the repository: the admission/classification rule evaluator
(`src/services/business-rules.service.ts`), the batch-grouping engine and
batch-link application (`src/components/service-orders/service-orders.component.ts`),
the transmission guard (the `transmitOrderToPlant` revision of the same
component), the AI-keyword candidate scorer (`aiSuggestedCandidates`), and the
tabular import step (`src/components/mapping-linker.component.ts`).

JavaScript string primitives (`toUpperCase`, `trim`, `split`, `includes`,
`startsWith`, the `||` default operator) are modelled by structurally recursive
Lean functions over `String.data`, so that every definition evaluates by
`decide`/`rfl`.  `Array.prototype.sort` with a comparator is, per the ECMAScript
specification, a stable sort; it is modelled by the stable
`List.insertionSort`.  Asynchronous collaborator calls (`subscribe(success =>
...)`) are modelled by passing the collaborator's reported Boolean outcome as an
explicit argument to the continuation.
-/

/-! ### JavaScript string primitives -/

/-- `s.toUpperCase()` (ASCII range, which covers all data handled here). -/
def jsToUpper (s : String) : String := String.mk (s.data.map Char.toUpper)

/-- `s.toLowerCase()` (ASCII range). -/
def jsToLower (s : String) : String := String.mk (s.data.map Char.toLower)

/-- `s.trim()`: strip surrounding whitespace. -/
def jsTrim (s : String) : String :=
  String.mk (((s.data.dropWhile Char.isWhitespace).reverse.dropWhile Char.isWhitespace).reverse)

/-- Splitting a character list at every occurrence of a separator character,
keeping empty segments, exactly as `s.split(sep)` does in JavaScript. -/
def splitChars (sep : Char) : List Char → List (List Char)
  | [] => [[]]
  | c :: cs =>
    let r := splitChars sep cs
    if c = sep then [] :: r
    else
      match r with
      | [] => [[c]]
      | t :: ts => (c :: t) :: ts

/-- `s.split(sep)` for a single-character separator. -/
def jsSplit (s : String) (sep : Char) : List String :=
  (splitChars sep s.data).map String.mk

/-- Whether `pat` occurs as a contiguous sublist. -/
def listOccurs (pat : List Char) : List Char → Bool
  | [] => pat.isEmpty
  | c :: rest => pat.isPrefixOf (c :: rest) || listOccurs pat rest

/-- `s.includes(pat)`. -/
def jsIncludes (s pat : String) : Bool := listOccurs pat.data s.data

/-- `s.startsWith(pat)`. -/
def jsStartsWith (s pat : String) : Bool := pat.data.isPrefixOf s.data

/-- The JavaScript `a || b` default operator on strings: the empty string is
falsy, so it is replaced by the fallback. -/
def jsOr (a b : String) : String := if a = "" then b else a

/-- `a || b` where `a` is an optional (possibly `undefined`) string field. -/
def jsOrOpt (o : Option String) (b : String) : String :=
  match o with
  | none => b
  | some s => if s = "" then b else s

/-- `String(x)` on a possibly-`undefined` value: JavaScript renders
`undefined` as the literal text `"undefined"`. -/
def jsStringOpt (o : Option String) : String :=
  match o with
  | none => "undefined"
  | some s => s

/-! ### Data model (`src/models/app.types.ts`) -/

/-- `OrderStatus` union type. -/
inductive OrderStatus where
  | Pending
  | Transmitted
  | InProcess
  | Rejected
  | Completed
  | Error
deriving DecidableEq, Repr

/-- Operation kind `'Labor' | 'Repair'`. -/
inductive OpKind where
  | Labor
  | Repair
deriving DecidableEq, Repr

/-- `ServiceOrderItem`: one line item of a service order.  Fields that no
embedded function reads (quantity, prices, detected metadata) are omitted. -/
structure ServiceOrderItem where
  code : String
  description : String
  isLinked : Bool
  linkedBydCode : Option String
  linkedBydDescription : Option String
deriving DecidableEq, Repr

/-- `ServiceOrder` header plus items. -/
structure ServiceOrder where
  id : String
  orderNumber : String
  date : String
  vin : String
  modelCodeRaw : String
  modelDescRaw : String
  year : String
  status : OrderStatus
  items : List ServiceOrderItem
deriving DecidableEq, Repr

/-- Dalton-code derivation strategy of a `BusinessRule`. -/
inductive Strategy where
  | mirrorMode
  | fixedMode
  | prefixMode
deriving DecidableEq, Repr

/-- `BusinessRule` (admission rule). -/
structure BusinessRule where
  id : String
  name : String
  description : Option String
  isActive : Bool
  strategy : Strategy
  fixedValue : Option String
  prefixValue : Option String
  placeholderCodes : List String
  defaultCategory : String
  defaultHours : Nat
deriving DecidableEq, Repr

/-- Priority union of a `ClassificationRule`. -/
inductive Priority where
  | high
  | normal
  | low
deriving DecidableEq, Repr

/-- `ClassificationRule`: keyword-driven category assignment. -/
structure ClassificationRule where
  id : String
  keyword : String
  category : String
  icon : String
  priority : Priority
  colorClass : String
deriving DecidableEq, Repr

/-- The record returned by `classifyItem`. -/
structure Classification where
  category : String
  icon : String
  priority : Priority
  colorClass : String
deriving DecidableEq, Repr

/-- `MappingItem` (factory catalog entry).  Fields that no embedded function
reads (id, status, categories, hours, battery flag, confidence) are omitted. -/
structure MappingItem where
  bydCode : String
  bydType : OpKind
  daltonCode : String
  description : Option String
  vehicleSeries : Option String
  vehicleModel : Option String
deriving DecidableEq, Repr

/-! ### BusinessRulesService (`src/services/business-rules.service.ts`) -/

/-- `activeRule` computed signal: `rules.find(r => r.isActive) || rules[0]`. -/
def activeRule (rules : List BusinessRule) : Option BusinessRule :=
  match rules.find? (fun r => r.isActive) with
  | some r => some r
  | none => rules.head?

/-- `isPlaceholderCode(code)`: the code equals, after trim + uppercase, some
entry of the active rule's `placeholderCodes`. -/
def isPlaceholderCode (rules : List BusinessRule) (code : String) : Bool :=
  match activeRule rules with
  | none => false
  | some active =>
    active.placeholderCodes.any (fun p => jsToUpper (jsTrim p) == jsToUpper (jsTrim code))

/-- `isItemRelevant(code)`: open policy when the active rule's
`placeholderCodes` list is empty, whitelist membership otherwise.  (The
source's `!active.placeholderCodes` null-check collapses with the emptiness
check, since the embedded field is always a list.) -/
def isItemRelevant (rules : List BusinessRule) (code : String) : Bool :=
  match activeRule rules with
  | none => true
  | some active =>
    if active.placeholderCodes.isEmpty then true
    else active.placeholderCodes.any (fun p => jsToUpper (jsTrim p) == jsToUpper (jsTrim code))

/-- `classifyItem(description)`: first rule, in list order, whose keyword is a
substring of the upper-cased description. -/
def classifyItem (rules : List ClassificationRule) (description : String) : Option Classification :=
  let descUpper := jsToUpper description
  match rules.find? (fun r => jsIncludes descUpper (jsToUpper r.keyword)) with
  | some m => some { category := m.category, icon := m.icon,
                     priority := m.priority, colorClass := m.colorClass }
  | none => none

/-- `setActiveRule(id)`: every rule's flag becomes `r.id === id`. -/
def setActiveRule (id : String) (rules : List BusinessRule) : List BusinessRule :=
  rules.map (fun r => { r with isActive := r.id == id })

/-- `addRule(rule)`: append with a fresh id (supplied by the caller, modelling
`crypto.randomUUID()`) and `isActive: false`. -/
def addRule (rules : List BusinessRule) (rule : BusinessRule) : List BusinessRule :=
  rules ++ [{ rule with isActive := false }]

/-- A `Partial<BusinessRule>` patch: present fields override. -/
structure RulePatch where
  id : Option String := none
  name : Option String := none
  description : Option (Option String) := none
  isActive : Option Bool := none
  strategy : Option Strategy := none
  fixedValue : Option (Option String) := none
  prefixValue : Option (Option String) := none
  placeholderCodes : Option (List String) := none
  defaultCategory : Option String := none
  defaultHours : Option Nat := none
deriving DecidableEq, Repr

/-- The object spread `{ ...r, ...changes }`. -/
def applyPatch (r : BusinessRule) (p : RulePatch) : BusinessRule :=
  { id := p.id.getD r.id
    name := p.name.getD r.name
    description := p.description.getD r.description
    isActive := p.isActive.getD r.isActive
    strategy := p.strategy.getD r.strategy
    fixedValue := p.fixedValue.getD r.fixedValue
    prefixValue := p.prefixValue.getD r.prefixValue
    placeholderCodes := p.placeholderCodes.getD r.placeholderCodes
    defaultCategory := p.defaultCategory.getD r.defaultCategory
    defaultHours := p.defaultHours.getD r.defaultHours }

/-- `updateRule(id, changes)`. -/
def updateRule (id : String) (p : RulePatch) (rules : List BusinessRule) : List BusinessRule :=
  rules.map (fun r => if r.id == id then applyPatch r p else r)

/-- `deleteRule(id)`: refuse to delete the last rule; after filtering, if no
rule is active, re-activate the first remaining one. -/
def deleteRule (id : String) (rules : List BusinessRule) : List BusinessRule :=
  if rules.length ≤ 1 then rules
  else
    let rules' := rules.filter (fun r => !(r.id == id))
    if rules'.any (fun r => r.isActive) then rules'
    else
      match rules' with
      | [] => []
      | r :: rest => { r with isActive := true } :: rest

/-- The initial rule set of the service (`rulesSignal` initial value). -/
def defaultMirrorRule : BusinessRule :=
  { id := "default-mirror"
    name := "Perfil Estándar"
    description := some "Detecta códigos MO006 y Servicios Generales"
    isActive := true
    strategy := Strategy.mirrorMode
    fixedValue := none
    prefixValue := none
    placeholderCodes := ["MO006", "MO-GEN", "ZLAB", "SERVICIO"]
    defaultCategory := "Labor"
    defaultHours := 0 }

/-- `rulesSignal` initial value: a single active rule. -/
def defaultBusinessRules : List BusinessRule := [defaultMirrorRule]

/-- Exactly one rule carries `active = true` (the rule-set invariant of §4.3). -/
def exactlyOneActive (rules : List BusinessRule) : Prop :=
  rules.countP (fun r => r.isActive) = 1

instance (rules : List BusinessRule) : Decidable (exactlyOneActive rules) :=
  inferInstanceAs (Decidable (_ = _))

/-! ### Theorems for claims C7 and C9 -/

/-- Claim C7: relevance policy switch.  When the active admission rule's
`placeholderCodes` list is empty, every code is relevant (open policy);
otherwise a code is relevant exactly when its trimmed upper-cased form equals
the trimmed upper-cased form of some placeholder code (whitelist policy). -/
theorem relevance_policy_switch_C7 :
    ∀ (rules : List BusinessRule) (code : String) (active : BusinessRule),
      activeRule rules = some active →
      (active.placeholderCodes = [] → isItemRelevant rules code = true)
      ∧ (active.placeholderCodes ≠ [] →
          (isItemRelevant rules code = true ↔
            ∃ p ∈ active.placeholderCodes, jsToUpper (jsTrim p) = jsToUpper (jsTrim code))) := by
  intro rules code active h
  constructor
  · intro hempty
    simp [isItemRelevant, h, hempty]
  · intro hne
    have hnotempty : active.placeholderCodes.isEmpty = false := by
      cases hcodes : active.placeholderCodes with
      | nil => exact absurd hcodes hne
      | cons a l => simp
    simp [isItemRelevant, h, hnotempty, List.any_eq_true]

/-- Witness for C7 at the service's initial rule set and the code `" mo006"`. -/
theorem relevance_policy_switch_C7_witness :
    (defaultMirrorRule.placeholderCodes = [] →
      isItemRelevant defaultBusinessRules " mo006" = true)
    ∧ (defaultMirrorRule.placeholderCodes ≠ [] →
        (isItemRelevant defaultBusinessRules " mo006" = true ↔
          ∃ p ∈ defaultMirrorRule.placeholderCodes,
            jsToUpper (jsTrim p) = jsToUpper (jsTrim " mo006"))) :=
  relevance_policy_switch_C7 defaultBusinessRules " mo006" defaultMirrorRule (by decide)

/-- The two-rule list of the spec's classification test case: a broad rule
before a more specific one. -/
def brakeRules : List ClassificationRule :=
  [ { id := "r1", keyword := "BRAKE", category := "Brakes", icon := "fa-a",
      priority := Priority.normal, colorClass := "gray" },
    { id := "r2", keyword := "DISC BRAKE", category := "BrakesAdvanced", icon := "fa-b",
      priority := Priority.normal, colorClass := "gray" } ]

/-- Claim C9: classification is first-match in list order.  On the empty rule
list the result is `none`; on `r :: rs` the result is `r`'s classification when
`r`'s keyword occurs in the normalized description and otherwise the result for
`rs`; in particular, with the broad rule "BRAKE" listed before "DISC BRAKE",
the description "DISC BRAKE PAD" classifies as "Brakes". -/
theorem classify_first_match_C9 :
    (∀ d : String, classifyItem [] d = none)
    ∧ (∀ (r : ClassificationRule) (rs : List ClassificationRule) (d : String),
        classifyItem (r :: rs) d =
          if jsIncludes (jsToUpper d) (jsToUpper r.keyword) then
            some { category := r.category, icon := r.icon,
                   priority := r.priority, colorClass := r.colorClass }
          else classifyItem rs d)
    ∧ classifyItem brakeRules "DISC BRAKE PAD" =
        some { category := "Brakes", icon := "fa-a",
               priority := Priority.normal, colorClass := "gray" } := by
  refine ⟨fun d => rfl, fun r rs d => ?_, by decide⟩
  cases h : jsIncludes (jsToUpper d) (jsToUpper r.keyword) <;>
    simp [classifyItem, List.find?_cons, h]

/-! ### Claim C6: the one-active-rule invariant -/

/-- A list containing two distinct values has at least two elements. -/
theorem two_mem_le_length {α : Type} {l : List α} {a b : α}
    (ha : a ∈ l) (hb : b ∈ l) (hne : a ≠ b) : 2 ≤ l.length := by
  induction l with
  | nil => cases ha
  | cons c cs ih =>
    rcases List.mem_cons.mp ha with rfl | ha'
    · rcases List.mem_cons.mp hb with rfl | hb'
      · exact absurd rfl hne
      · have := List.length_pos_of_mem hb'
        simp only [List.length_cons]
        omega
    · rcases List.mem_cons.mp hb with rfl | hb'
      · have := List.length_pos_of_mem ha'
        simp only [List.length_cons]
        omega
      · have := ih ha' hb'
        simp only [List.length_cons]
        omega

/-- Counterexample to claim C6 as stated: starting from the service's initial
rule set (which satisfies the invariant), `setActiveRule` with an id that
belongs to no rule deactivates every rule, so afterwards zero rules are
active. -/
theorem rule_invariant_C6_counterexample :
    exactlyOneActive defaultBusinessRules
    ∧ ¬ exactlyOneActive (setActiveRule "no-such-rule" defaultBusinessRules) := by
  decide

/-- Claim C6, amended: starting from a rule set with exactly one active rule,
the invariant is preserved by `addRule` unconditionally; by `setActiveRule id`
when exactly one rule carries `id` (that rule then becomes the active one, all
others are deactivated in the same update); by `updateRule` when the patch does
not touch the active flag; and by `deleteRule id` when at most one rule carries
`id`.  Deleting the rule that is active re-activates a deterministic fallback:
the first remaining rule. -/
theorem rule_invariant_C6_amended :
    ∀ rules : List BusinessRule, exactlyOneActive rules →
      (∀ id, rules.countP (fun r => r.id == id) = 1 →
         exactlyOneActive (setActiveRule id rules))
      ∧ (∀ rule, exactlyOneActive (addRule rules rule))
      ∧ (∀ id p, p.isActive = none → exactlyOneActive (updateRule id p rules))
      ∧ (∀ id, rules.countP (fun r => r.id == id) ≤ 1 →
           exactlyOneActive (deleteRule id rules))
      ∧ (∀ id, rules.countP (fun r => r.id == id) ≤ 1 →
           (∃ r ∈ rules, r.id = id ∧ r.isActive = true) → 2 ≤ rules.length →
           (deleteRule id rules).head? =
             ((rules.filter (fun r => !(r.id == id))).head?).map
               (fun r => { r with isActive := true })) := by
  intro rules hone
  refine ⟨?_, ?_, ?_, ?_, ?_⟩
  · -- setActiveRule
    intro id hid
    simp only [exactlyOneActive, setActiveRule, List.countP_map]
    exact hid
  · -- addRule
    intro rule
    simp only [exactlyOneActive, addRule, List.countP_append]
    have : List.countP (fun r => r.isActive) [{ rule with isActive := false }] = 0 := by
      simp [List.countP_cons]
    rw [this]
    exact hone
  · -- updateRule with a patch that leaves the active flag alone
    intro id p hp
    simp only [exactlyOneActive, updateRule, List.countP_map]
    calc List.countP ((fun r => r.isActive) ∘ fun r => if r.id == id then applyPatch r p else r) rules
        = List.countP (fun r => r.isActive) rules := by
          apply List.countP_congr
          intro r _
          by_cases h : r.id == id <;> simp [Function.comp, h, applyPatch, hp]
      _ = 1 := hone
  · -- deleteRule preserves the invariant
    intro id hid
    by_cases hlen : rules.length ≤ 1
    · simpa [exactlyOneActive, deleteRule, hlen] using hone
    · simp only [deleteRule, if_neg hlen]
      by_cases hact : (rules.filter (fun r => !(r.id == id))).any (fun r => r.isActive) = true
      · simp only [hact, if_pos]
        have hle : List.countP (fun r => r.isActive) (rules.filter (fun r => !(r.id == id)))
            ≤ List.countP (fun r => r.isActive) rules :=
          (List.filter_sublist rules).countP_le _
        have hpos : 0 < List.countP (fun r => r.isActive)
            (rules.filter (fun r => !(r.id == id))) := by
          rw [List.countP_pos_iff]
          obtain ⟨x, hx, hxa⟩ := List.any_eq_true.mp hact
          exact ⟨x, hx, hxa⟩
        have : List.countP (fun r => r.isActive)
            (rules.filter (fun r => !(r.id == id))) = 1 := by
          rw [exactlyOneActive] at hone
          omega
        simpa [exactlyOneActive, hact] using this
      · have hne : rules.filter (fun r => !(r.id == id)) ≠ [] := by
          have hsplit := List.length_eq_countP_add_countP (fun r => r.id == id) rules
          have hcnt : (rules.filter (fun r => !(r.id == id))).length
              = List.countP (fun a => decide ¬(a.id == id) = true) rules := by
            rw [← List.countP_eq_length_filter]
            apply List.countP_congr
            intro r _
            simp
          intro hnil
          rw [hnil] at hcnt
          simp only [List.length_nil] at hcnt
          omega
        cases hrest : rules.filter (fun r => !(r.id == id)) with
        | nil => exact absurd hrest hne
        | cons r0 rest =>
          rw [hrest] at hact
          simp only [hrest, hact, Bool.false_eq_true, if_false]
          have hin : ∀ x ∈ r0 :: rest, x.isActive = false := by
            intro x hx
            by_contra hxa
            apply hact
            simp only [List.any_eq_true]
            exact ⟨x, hx, by simpa using hxa⟩
          simp only [exactlyOneActive, List.countP_cons]
          have hrest0 : List.countP (fun r => r.isActive) rest = 0 := by
            rw [List.countP_eq_zero]
            intro x hx
            simp [hin x (List.mem_cons_of_mem _ hx)]
          simp [hrest0]
  · -- deleting the active rule re-activates the first remaining rule
    intro id hid hmem hlen2
    obtain ⟨ract, hractmem, hractid, hractact⟩ := hmem
    have hlen : ¬ rules.length ≤ 1 := by omega
    simp only [deleteRule, if_neg hlen]
    have hact : (rules.filter (fun r => !(r.id == id))).any (fun r => r.isActive) = false := by
      by_contra h
      have h' : (rules.filter (fun r => !(r.id == id))).any (fun r => r.isActive) = true := by
        revert h
        cases (rules.filter (fun r => !(r.id == id))).any (fun r => r.isActive) <;> simp
      rw [List.any_eq_true] at h'
      obtain ⟨r', hr'mem, hr'act⟩ := h'
      have hr'rules : r' ∈ rules := List.mem_of_mem_filter hr'mem
      have hr'id : r'.id ≠ id := by
        have := List.of_mem_filter hr'mem
        simpa using this
      have hdiff : ract ≠ r' := by
        intro h
        rw [← h] at hr'id
        exact hr'id hractid
      have hboth : ract ∈ rules.filter (fun r => r.isActive) := by
        rw [List.mem_filter]
        exact ⟨hractmem, hractact⟩
      have hboth' : r' ∈ rules.filter (fun r => r.isActive) := by
        rw [List.mem_filter]
        exact ⟨hr'rules, hr'act⟩
      have h2 : 2 ≤ (rules.filter (fun r => r.isActive)).length :=
        two_mem_le_length hboth hboth' hdiff
      rw [exactlyOneActive, List.countP_eq_length_filter] at hone
      omega
    have hne : rules.filter (fun r => !(r.id == id)) ≠ [] := by
      have hcnt : (rules.filter (fun r => !(r.id == id))).length
          = List.countP (fun a => decide ¬(a.id == id) = true) rules := by
        rw [← List.countP_eq_length_filter]
        apply List.countP_congr
        intro r _
        simp
      have hsplit := List.length_eq_countP_add_countP (fun r => r.id == id) rules
      intro hnil
      rw [hnil] at hcnt
      simp only [List.length_nil] at hcnt
      omega
    cases hrest : rules.filter (fun r => !(r.id == id)) with
    | nil => exact absurd hrest hne
    | cons r0 rest =>
      rw [hrest] at hact
      simp [hrest, hact]

/-- A two-rule demonstration rule set: rule A active, rule B inactive. -/
def demoRuleA : BusinessRule :=
  { defaultMirrorRule with id := "rule-a", name := "Regla A", isActive := true }

/-- Second demonstration rule, initially inactive. -/
def demoRuleB : BusinessRule :=
  { defaultMirrorRule with
    id := "rule-b"
    name := "Regla B"
    isActive := false
    placeholderCodes := ["ZLAB"] }

/-- Demonstration rule set for the C6 witness. -/
def demoAdminRules : List BusinessRule := [demoRuleA, demoRuleB]

/-- Witness for the amended C6 at a concrete two-rule set: activating rule B,
adding a rule, a patch without the active flag, and deleting the active rule A
(which re-activates the first remaining rule, B). -/
theorem rule_invariant_C6_amended_witness :
    exactlyOneActive (setActiveRule "rule-b" demoAdminRules)
    ∧ exactlyOneActive (addRule demoAdminRules demoRuleB)
    ∧ exactlyOneActive (updateRule "rule-a" ({ name := some "Renamed" } : RulePatch) demoAdminRules)
    ∧ exactlyOneActive (deleteRule "rule-a" demoAdminRules)
    ∧ (deleteRule "rule-a" demoAdminRules).head? =
        ((demoAdminRules.filter (fun r => !(r.id == "rule-a"))).head?).map
          (fun r => { r with isActive := true }) := by
  have h := rule_invariant_C6_amended demoAdminRules (by decide)
  exact ⟨h.1 "rule-b" (by decide),
         h.2.1 demoRuleB,
         h.2.2.1 "rule-a" ({ name := some "Renamed" } : RulePatch) rfl,
         h.2.2.2.1 "rule-a" (by decide),
         h.2.2.2.2 "rule-a" (by decide) ⟨demoRuleA, by decide, by decide, by decide⟩ (by decide)⟩

/-! ### Batch grouping engine (`pendingItemsByModel`,
`src/components/service-orders/service-orders.component.ts`) -/

/-- Lexicographic comparison of character lists by code point, the order used
to model `a.groupId.localeCompare(b.groupId)` on the plain ASCII group keys
produced by the grouping engine. -/
def lexLe : List Char → List Char → Bool
  | [], _ => true
  | _ :: _, [] => false
  | a :: as, b :: bs =>
    if a.toNat < b.toNat then true
    else if b.toNat < a.toNat then false
    else lexLe as bs

/-- Lexicographic string comparison. -/
def strLe (a b : String) : Bool := lexLe a.data b.data

/-- `lexLe` is total. -/
theorem lexLe_total : ∀ as bs : List Char, (lexLe as bs || lexLe bs as) = true := by
  intro as
  induction as with
  | nil => intro bs; simp [lexLe]
  | cons a as ih =>
    intro bs
    cases bs with
    | nil => simp [lexLe]
    | cons b bs =>
      simp only [lexLe]
      by_cases h1 : a.toNat < b.toNat
      · simp [h1]
      · by_cases h2 : b.toNat < a.toNat
        · simp [h1, h2]
        · simp [h1, h2, ih bs]

/-- `lexLe` is transitive. -/
theorem lexLe_trans : ∀ as bs cs : List Char,
    lexLe as bs = true → lexLe bs cs = true → lexLe as cs = true := by
  intro as
  induction as with
  | nil => intro bs cs _ _; simp [lexLe]
  | cons a as ih =>
    intro bs cs h1 h2
    cases bs with
    | nil => simp [lexLe] at h1
    | cons b bs =>
      cases cs with
      | nil => simp [lexLe] at h2
      | cons c cs =>
        simp only [lexLe] at h1 h2 ⊢
        split at h1
        · rename_i hab
          split at h2
          · rename_i hbc
            have hac : a.toNat < c.toNat := Nat.lt_trans hab hbc
            simp [hac]
          · split at h2
            · simp at h2
            · rename_i hbc hcb
              have hac : a.toNat < c.toNat := by omega
              simp [hac]
        · split at h1
          · simp at h1
          · rename_i hab hba
            split at h2
            · rename_i hbc
              have hac : a.toNat < c.toNat := by omega
              simp [hac]
            · split at h2
              · simp at h2
              · rename_i hbc hcb
                have hac : ¬ a.toNat < c.toNat := by omega
                have hca : ¬ c.toNat < a.toNat := by omega
                simp only [if_neg hac, if_neg hca]
                exact ih bs cs h1 h2

/-- One `(orderId, orderNumber, vin, item)` tuple inside a `ModelGroup`. -/
structure GroupItem where
  orderId : String
  orderNumber : String
  vin : String
  item : ServiceOrderItem
deriving DecidableEq, Repr

/-- `ModelGroup`: one cluster of the batch view, keyed by model + year. -/
structure ModelGroup where
  groupId : String
  modelName : String
  year : String
  count : Nat
  items : List GroupItem
deriving DecidableEq, Repr

/-- Comparator of the final `.sort((a, b) => a.groupId.localeCompare(b.groupId))`. -/
def groupLE (a b : ModelGroup) : Prop := strLe a.groupId b.groupId = true

instance : DecidableRel groupLE :=
  fun a b => inferInstanceAs (Decidable (strLe a.groupId b.groupId = true))

instance : IsTotal ModelGroup groupLE :=
  ⟨fun a b => by
    rcases Bool.or_eq_true_iff.mp (lexLe_total a.groupId.data b.groupId.data) with h | h
    · exact Or.inl h
    · exact Or.inr h⟩

instance : IsTrans ModelGroup groupLE :=
  ⟨fun _ _ _ h1 h2 => lexLe_trans _ _ _ h1 h2⟩

/-- The group's model name, from the source line
`(order.modelDescRaw || order.modelCodeRaw || 'GENERICO').split(' ')[0] + ' ' +
((order.modelDescRaw || '').split(' ')[1] || '')`. -/
def modelNameOf (o : ServiceOrder) : String :=
  ((jsSplit (jsOr o.modelDescRaw (jsOr o.modelCodeRaw "GENERICO")) ' ').headD "")
    ++ " " ++ ((jsSplit o.modelDescRaw ' ').getD 1 "")

/-- `order.year || 'N/A'`. -/
def yearOf (o : ServiceOrder) : String := jsOr o.year "N/A"

/-- The tuples one order contributes: its items that are unlinked and pass the
admission rules, tagged with the order's id, number and VIN. -/
def orderTuples (rules : List BusinessRule) (o : ServiceOrder) : List GroupItem :=
  (o.items.filter (fun i => !i.isLinked && isItemRelevant rules i.code)).map
    (fun i => { orderId := o.id, orderNumber := o.orderNumber, vin := o.vin, item := i })

/-- Insertion into the insertion-ordered, key-unique group list, modelling the
`Map<string, ModelGroup>` (`groups.has` / `groups.set` / push + `count++`). -/
def insertTuples (gid modelName year : String) (ts : List GroupItem) :
    List ModelGroup → List ModelGroup
  | [] => [{ groupId := gid, modelName := modelName, year := year,
             count := ts.length, items := ts }]
  | g :: gs =>
    if g.groupId = gid then
      { g with count := g.count + ts.length, items := g.items ++ ts } :: gs
    else g :: insertTuples gid modelName year ts gs

/-- The loop body of `pendingItemsByModel`: skip terminal orders, otherwise
add the order's pending relevant items under its model/year key. -/
def processOrder (rules : List BusinessRule) (groups : List ModelGroup)
    (o : ServiceOrder) : List ModelGroup :=
  if o.status = OrderStatus.Transmitted ∨ o.status = OrderStatus.Completed then groups
  else
    insertTuples (jsTrim (modelNameOf o) ++ "|" ++ yearOf o) (jsTrim (modelNameOf o))
      (yearOf o) (orderTuples rules o) groups

/-- `pendingItemsByModel` computed signal: group, drop empty groups, sort by
group key. -/
def pendingItemsByModel (rules : List BusinessRule) (orders : List ServiceOrder) :
    List ModelGroup :=
  List.insertionSort groupLE
    ((orders.foldl (processOrder rules) []).filter (fun g => decide (0 < g.count)))

/-- All item tuples of a group list, in group order. -/
def joinItems (gs : List ModelGroup) : List GroupItem := gs.flatMap (fun g => g.items)

/-- The tuples of all unlinked, relevant items of all non-terminal orders: the
reference multiset the grouping must partition. -/
def relevantTuples (rules : List BusinessRule) (orders : List ServiceOrder) :
    List GroupItem :=
  orders.flatMap (fun o =>
    if o.status = OrderStatus.Transmitted ∨ o.status = OrderStatus.Completed then []
    else orderTuples rules o)

/-- Inserting an order's tuples adds exactly those tuples to the grouped
multiset. -/
theorem joinItems_insertTuples (gid n y : String) (ts : List GroupItem)
    (gs : List ModelGroup) :
    (joinItems (insertTuples gid n y ts gs)).Perm (joinItems gs ++ ts) := by
  induction gs with
  | nil => simp [insertTuples, joinItems]
  | cons g gs ih =>
    by_cases h : g.groupId = gid
    · simp only [insertTuples, if_pos h, joinItems, List.flatMap_cons]
      rw [List.append_assoc, List.append_assoc]
      exact List.Perm.append_left g.items List.perm_append_comm
    · simp only [insertTuples, if_neg h, joinItems, List.flatMap_cons]
      rw [List.append_assoc]
      exact List.Perm.append_left g.items ih

/-- `insertTuples` preserves the count-equals-length invariant of every group. -/
theorem counts_insertTuples (gid n y : String) (ts : List GroupItem)
    (gs : List ModelGroup) (h : ∀ g ∈ gs, g.count = g.items.length) :
    ∀ g ∈ insertTuples gid n y ts gs, g.count = g.items.length := by
  induction gs with
  | nil =>
    intro g hg
    simp only [insertTuples, List.mem_singleton] at hg
    subst hg
    rfl
  | cons g0 gs ih =>
    intro g hg
    by_cases heq : g0.groupId = gid
    · simp only [insertTuples, if_pos heq, List.mem_cons] at hg
      rcases hg with rfl | hg
      · have := h g0 (List.mem_cons_self g0 gs)
        simp [this]
      · exact h g (List.mem_cons_of_mem _ hg)
    · simp only [insertTuples, if_neg heq, List.mem_cons] at hg
      rcases hg with rfl | hg
      · exact h g (List.mem_cons_self g gs)
      · exact ih (fun g' hg' => h g' (List.mem_cons_of_mem _ hg')) g hg

/-- Folding `processOrder` over the orders accumulates, as a multiset, exactly
the unlinked relevant tuples of the non-terminal orders. -/
theorem joinItems_foldl (rules : List BusinessRule) :
    ∀ (orders : List ServiceOrder) (acc : List ModelGroup),
      (joinItems (orders.foldl (processOrder rules) acc)).Perm
        (joinItems acc ++ relevantTuples rules orders) := by
  intro orders
  induction orders with
  | nil => intro acc; simp [relevantTuples]
  | cons o os ih =>
    intro acc
    have h1 := ih (processOrder rules acc o)
    have h2 : (joinItems (processOrder rules acc o)).Perm
        (joinItems acc ++
          (if o.status = OrderStatus.Transmitted ∨ o.status = OrderStatus.Completed then []
           else orderTuples rules o)) := by
      by_cases ht : o.status = OrderStatus.Transmitted ∨ o.status = OrderStatus.Completed
      · simp [processOrder, ht]
      · simp only [processOrder, if_neg ht, if_neg ht]
        exact joinItems_insertTuples _ _ _ _ acc
    have h3 := h1.trans (h2.append_right (relevantTuples rules os))
    simp only [List.foldl_cons]
    refine h3.trans ?_
    rw [List.append_assoc]
    simp [relevantTuples, List.flatMap_cons]

/-- The fold preserves the count-equals-length invariant. -/
theorem counts_foldl (rules : List BusinessRule) :
    ∀ (orders : List ServiceOrder) (acc : List ModelGroup),
      (∀ g ∈ acc, g.count = g.items.length) →
      ∀ g ∈ orders.foldl (processOrder rules) acc, g.count = g.items.length := by
  intro orders
  induction orders with
  | nil => intro acc h; simpa using h
  | cons o os ih =>
    intro acc h
    simp only [List.foldl_cons]
    apply ih
    by_cases ht : o.status = OrderStatus.Transmitted ∨ o.status = OrderStatus.Completed
    · simpa [processOrder, ht] using h
    · simp only [processOrder, if_neg ht]
      exact counts_insertTuples _ _ _ _ acc h

/-- Dropping count-zero groups does not change the grouped multiset, since a
count-zero group (under the invariant) holds no items. -/
theorem joinItems_filter_pos (gs : List ModelGroup)
    (h : ∀ g ∈ gs, g.count = g.items.length) :
    joinItems (gs.filter (fun g => decide (0 < g.count))) = joinItems gs := by
  induction gs with
  | nil => rfl
  | cons g gs ih =>
    have hg := h g (List.mem_cons_self g gs)
    have hrest := fun g' hg' => h g' (List.mem_cons_of_mem _ hg')
    have hrec := ih hrest
    by_cases hc : 0 < g.count
    · have hstep : List.filter (fun g => decide (0 < g.count)) (g :: gs)
          = g :: List.filter (fun g => decide (0 < g.count)) gs := by
        simp [List.filter_cons, hc]
      rw [hstep]
      show g.items ++ joinItems (List.filter (fun g => decide (0 < g.count)) gs)
          = g.items ++ joinItems gs
      rw [hrec]
    · have hzero : g.count = 0 := by omega
      have hitems : g.items = [] := by
        have := hg
        rw [hzero] at this
        exact (List.length_eq_zero.mp this.symm)
      have hstep : List.filter (fun g => decide (0 < g.count)) (g :: gs)
          = List.filter (fun g => decide (0 < g.count)) gs := by
        simp [List.filter_cons, hzero]
      rw [hstep, hrec]
      show joinItems gs = g.items ++ joinItems gs
      rw [hitems]
      rfl

/-- Claim C4: the grouping computation is a partition.  The tuples collected
over all produced groups are a permutation of the unlinked relevant items of
all non-terminal orders (so each such item lands in exactly one group, exactly
once); every produced group satisfies `count = items.length` and has positive
count (count-zero groups are discarded); the counts sum to the total number of
unlinked relevant items; and the groups are sorted by group key. -/
theorem grouping_partition_C4 :
    ∀ (rules : List BusinessRule) (orders : List ServiceOrder),
      (joinItems (pendingItemsByModel rules orders)).Perm (relevantTuples rules orders)
      ∧ (∀ g ∈ pendingItemsByModel rules orders, g.count = g.items.length ∧ 0 < g.count)
      ∧ ((pendingItemsByModel rules orders).map (fun g => g.count)).sum
          = (relevantTuples rules orders).length
      ∧ List.Pairwise groupLE (pendingItemsByModel rules orders) := by
  intro rules orders
  have hcounts : ∀ g ∈ orders.foldl (processOrder rules) [], g.count = g.items.length :=
    counts_foldl rules orders [] (by intro g hg; cases hg)
  have hperm : (joinItems (pendingItemsByModel rules orders)).Perm
      (relevantTuples rules orders) := by
    have hsort : (pendingItemsByModel rules orders).Perm
        ((orders.foldl (processOrder rules) []).filter (fun g => decide (0 < g.count))) :=
      List.perm_insertionSort groupLE _
    have h1 : (joinItems (pendingItemsByModel rules orders)).Perm
        (joinItems ((orders.foldl (processOrder rules) []).filter
          (fun g => decide (0 < g.count)))) := by
      unfold joinItems
      exact List.Perm.flatMap_right _ hsort
    rw [joinItems_filter_pos _ hcounts] at h1
    refine h1.trans ?_
    have h2 := joinItems_foldl rules orders []
    simpa [joinItems] using h2
  have hmem : ∀ g ∈ pendingItemsByModel rules orders, g.count = g.items.length ∧ 0 < g.count := by
    intro g hg
    have hg' : g ∈ (orders.foldl (processOrder rules) []).filter
        (fun g => decide (0 < g.count)) :=
      (List.perm_insertionSort groupLE _).mem_iff.mp hg
    have hgmem := List.mem_of_mem_filter hg'
    have hgpos : 0 < g.count := by
      have := List.of_mem_filter hg'
      simpa using this
    exact ⟨hcounts g hgmem, hgpos⟩
  refine ⟨hperm, hmem, ?_, List.sorted_insertionSort groupLE _⟩
  have hsum : ((pendingItemsByModel rules orders).map (fun g => g.count)).sum
      = ((pendingItemsByModel rules orders).map (fun g => g.items.length)).sum := by
    congr 1
    apply List.map_congr_left
    intro g hg
    exact (hmem g hg).1
  rw [hsum]
  have hlen : ((pendingItemsByModel rules orders).map (fun g => g.items.length)).sum
      = (joinItems (pendingItemsByModel rules orders)).length := by
    rw [joinItems, List.length_flatMap]
    rfl
  rw [hlen, hperm.length_eq]

/-- A one-group list with positive count passes the empty-group filter and the
sort unchanged. -/
theorem pending_single_group (g : ModelGroup) (h : 0 < g.count) :
    List.insertionSort groupLE (List.filter (fun g => decide (0 < g.count)) [g]) = [g] := by
  simp [List.filter_cons, h, List.insertionSort]

/-- Claim C8: two non-terminal orders of the same year whose model
descriptions agree on the first two whitespace-separated tokens (and may
differ afterwards) collapse into one single `ModelGroup`, whose count is the
sum of the two orders' unresolved relevant items. -/
theorem two_token_grouping_C8 :
    ∀ (rules : List BusinessRule) (o1 o2 : ServiceOrder),
      ¬(o1.status = OrderStatus.Transmitted ∨ o1.status = OrderStatus.Completed) →
      ¬(o2.status = OrderStatus.Transmitted ∨ o2.status = OrderStatus.Completed) →
      o1.modelDescRaw ≠ "" → o2.modelDescRaw ≠ "" →
      (jsSplit o1.modelDescRaw ' ').headD "" = (jsSplit o2.modelDescRaw ' ').headD "" →
      (jsSplit o1.modelDescRaw ' ').getD 1 "" = (jsSplit o2.modelDescRaw ' ').getD 1 "" →
      o1.modelDescRaw ≠ o2.modelDescRaw →
      o1.year = o2.year →
      0 < (orderTuples rules o1).length + (orderTuples rules o2).length →
      pendingItemsByModel rules [o1, o2] =
        [{ groupId := jsTrim (modelNameOf o1) ++ "|" ++ yearOf o1
           modelName := jsTrim (modelNameOf o1)
           year := yearOf o1
           count := (orderTuples rules o1).length + (orderTuples rules o2).length
           items := orderTuples rules o1 ++ orderTuples rules o2 }] := by
  intro rules o1 o2 ht1 ht2 hd1 hd2 hfirst hsecond _hdiff hyear hpos
  have hmn : modelNameOf o2 = modelNameOf o1 := by
    simp only [modelNameOf, jsOr, if_neg hd1, if_neg hd2, hfirst, hsecond]
  have hy : yearOf o2 = yearOf o1 := by
    simp only [yearOf, jsOr, hyear]
  have hfold : List.foldl (processOrder rules) [] [o1, o2] =
      [{ groupId := jsTrim (modelNameOf o1) ++ "|" ++ yearOf o1
         modelName := jsTrim (modelNameOf o1)
         year := yearOf o1
         count := (orderTuples rules o1).length + (orderTuples rules o2).length
         items := orderTuples rules o1 ++ orderTuples rules o2 }] := by
    simp only [List.foldl_cons, List.foldl_nil]
    simp only [processOrder, if_neg ht1, if_neg ht2]
    rw [hmn, hy]
    simp [insertTuples]
  rw [pendingItemsByModel, hfold]
  exact pending_single_group _ hpos

/-- A pending, unlinked placeholder labor line. -/
def demoItemMO006 : ServiceOrderItem :=
  { code := "MO006"
    description := "REVISION DE FRENOS"
    isLinked := false
    linkedBydCode := none
    linkedBydDescription := none }

/-- A parts line that the whitelist filters out. -/
def demoItemPart : ServiceOrderItem :=
  { code := "PART99"
    description := "FILTRO DE ACEITE"
    isLinked := false
    linkedBydCode := none
    linkedBydDescription := none }

/-- First demonstration order: trim BC. -/
def demoOrderBC : ServiceOrder :=
  { id := "O1"
    orderNumber := "XCL001"
    date := "2025-01-10"
    vin := "VIN-BC-1"
    modelCodeRaw := "M1"
    modelDescRaw := "SONG PLUS 2025 BC DM-I"
    year := "2025"
    status := OrderStatus.Pending
    items := [demoItemMO006] }

/-- Second demonstration order: trim BL, same first two tokens and year. -/
def demoOrderBL : ServiceOrder :=
  { id := "O2"
    orderNumber := "XCL002"
    date := "2025-01-11"
    vin := "VIN-BL-2"
    modelCodeRaw := "M2"
    modelDescRaw := "SONG PLUS 2025 BL DM-I"
    year := "2025"
    status := OrderStatus.Pending
    items := [demoItemMO006, demoItemPart] }

/-- Witness for C8 at the spec's scenario: the BC and BL trims of
"SONG PLUS 2025" collapse into a single group whose count sums both orders'
unresolved relevant items. -/
theorem two_token_grouping_C8_witness :
    pendingItemsByModel defaultBusinessRules [demoOrderBC, demoOrderBL] =
      [{ groupId := jsTrim (modelNameOf demoOrderBC) ++ "|" ++ yearOf demoOrderBC
         modelName := jsTrim (modelNameOf demoOrderBC)
         year := yearOf demoOrderBC
         count := (orderTuples defaultBusinessRules demoOrderBC).length +
                  (orderTuples defaultBusinessRules demoOrderBL).length
         items := orderTuples defaultBusinessRules demoOrderBC ++
                  orderTuples defaultBusinessRules demoOrderBL }] :=
  two_token_grouping_C8 defaultBusinessRules demoOrderBC demoOrderBL
    (by decide) (by decide) (by decide) (by decide) (by decide)
    (by decide) (by decide) (by decide) (by decide)

/-! ### Batch link application (`confirmBatchLink`) -/

/-- One element of the `itemsToLink` payload sent to the persistence
collaborator. -/
structure LinkRequest where
  daltonCode : String
  description : String
deriving DecidableEq, Repr

/-- The component state read and written by `confirmBatchLink`. -/
structure BatchState where
  rawOrders : List ServiceOrder
  selectedBatchModelGroup : Option String
  selectedBatchItems : List String
  selectedBatchTargetCode : Option MappingItem
  isBatchProcessing : Bool
deriving DecidableEq, Repr

/-- `getActiveGroupItems()`: the tuples of the currently selected group, or
`[]` when no group is selected or the key no longer exists. -/
def getActiveGroupItems (rules : List BusinessRule) (st : BatchState) : List GroupItem :=
  match st.selectedBatchModelGroup with
  | none => []
  | some gid =>
    match (pendingItemsByModel rules st.rawOrders).find? (fun g => g.groupId == gid) with
    | some g => g.items
    | none => []

/-- The `itemsToLink` list: tuples of the active group whose
`orderNumber_itemCode` key is in the selection, projected to code and
description. -/
def batchItemsToLink (rules : List BusinessRule) (st : BatchState) : List LinkRequest :=
  ((getActiveGroupItems rules st).filter
      (fun d => st.selectedBatchItems.contains (d.orderNumber ++ "_" ++ d.item.code))).map
    (fun d => { daltonCode := d.item.code, description := d.item.description })

/-- The optimistic local update of a successful batch link: across all loaded
orders, every item whose internal code equals the code of some linked request
is marked linked and bound to the chosen factory code. -/
def applyBatchLinkOrders (links : List LinkRequest) (bydCode : String)
    (orders : List ServiceOrder) : List ServiceOrder :=
  orders.map (fun o =>
    { o with items := o.items.map (fun i =>
        if links.any (fun link => link.daltonCode == i.code) then
          { i with isLinked := true, linkedBydCode := some bydCode }
        else i) })

/-- `confirmBatchLink()`: the collaborator's reported outcome (the Boolean the
`subscribe` callback receives from `linkOrderItemsBatch`) is the `success`
argument.  On success every loaded order's items matching a selected internal
code are marked linked; on failure only the processing flag is reset. -/
def confirmBatchLink (rules : List BusinessRule) (st : BatchState) (success : Bool) :
    BatchState :=
  match st.selectedBatchTargetCode with
  | none => st
  | some mapping =>
    if st.selectedBatchItems.isEmpty then st
    else
      let itemsToLink := batchItemsToLink rules st
      if success then
        let newOrders := applyBatchLinkOrders itemsToLink mapping.bydCode st.rawOrders
        let st1 : BatchState :=
          { st with
            rawOrders := newOrders
            selectedBatchItems := []
            selectedBatchTargetCode := none
            isBatchProcessing := false }
        if (getActiveGroupItems rules st1).isEmpty then
          { st1 with selectedBatchModelGroup := none }
        else st1
      else
        { st with isBatchProcessing := false }

/-- Claim C1: batch link is all-or-nothing.  When the persistence collaborator
reports failure, the local order collection is unchanged: no item of the batch
(or any other item) is marked linked locally. -/
theorem batch_link_atomic_C1 :
    ∀ (rules : List BusinessRule) (st : BatchState),
      (confirmBatchLink rules st false).rawOrders = st.rawOrders := by
  intro rules st
  cases htc : st.selectedBatchTargetCode with
  | none => simp [confirmBatchLink, htc]
  | some mapping =>
    by_cases hempty : st.selectedBatchItems.isEmpty <;>
      simp [confirmBatchLink, htc, hempty]


/-- Projecting the loaded orders out of the group-deselection branch: both
branches of the final `if` carry the same order collection. -/
theorem rawOrders_ite (c : Prop) [Decidable c] (a b : BatchState)
    (h : a.rawOrders = b.rawOrders) : (if c then a else b).rawOrders = b.rawOrders := by
  split
  · exact h
  · rfl

/-- Claim C3: the local update of a successful batch link matches items by
internal code alone, across all loaded orders.  Every item whose code matches
no selected item's code keeps its linked flag and binding unchanged (the frame
property), and every item whose code does match a selected code — also an
unselected item of a different order that happens to share the code — is
marked linked to the chosen factory code. -/
theorem batch_link_frame_C3 :
    ∀ (rules : List BusinessRule) (st : BatchState) (n m : Nat)
      (o : ServiceOrder) (i : ServiceOrderItem),
      st.rawOrders[n]? = some o →
      o.items[m]? = some i →
      ∃ o', (confirmBatchLink rules st true).rawOrders[n]? = some o'
        ∧ ((batchItemsToLink rules st).any (fun l => l.daltonCode == i.code) = false →
            o'.items[m]? = some i)
        ∧ (∀ mapping, st.selectedBatchTargetCode = some mapping →
            st.selectedBatchItems.isEmpty = false →
            (batchItemsToLink rules st).any (fun l => l.daltonCode == i.code) = true →
            o'.items[m]? =
              some { i with isLinked := true, linkedBydCode := some mapping.bydCode }) := by
  intro rules st n m o i ho hi
  cases htc : st.selectedBatchTargetCode with
  | none =>
    refine ⟨o, ?_, fun _ => hi, ?_⟩
    · simpa [confirmBatchLink, htc] using ho
    · intro mapping hmap
      simp [htc] at hmap
  | some mapping0 =>
    cases hempty : st.selectedBatchItems.isEmpty with
    | true =>
      refine ⟨o, ?_, fun _ => hi, ?_⟩
      · simpa [confirmBatchLink, htc, hempty] using ho
      · intro mapping _ hempty'
        simp at hempty'
    | false =>
      have hraw : (confirmBatchLink rules st true).rawOrders =
          applyBatchLinkOrders (batchItemsToLink rules st) mapping0.bydCode st.rawOrders := by
        simp only [confirmBatchLink, htc, hempty, Bool.false_eq_true, if_false, if_true]
        apply rawOrders_ite
        rfl
      refine ⟨{ o with items := o.items.map (fun i =>
          if (batchItemsToLink rules st).any (fun link => link.daltonCode == i.code) then
            { i with isLinked := true, linkedBydCode := some mapping0.bydCode }
          else i) }, ?_, ?_, ?_⟩
      · rw [hraw, applyBatchLinkOrders, List.getElem?_map, ho]
        rfl
      · intro hnone
        show (o.items.map _)[m]? = some i
        rw [List.getElem?_map, hi]
        show some (if ((batchItemsToLink rules st).any
              fun link => link.daltonCode == i.code) = true
            then { i with isLinked := true, linkedBydCode := some mapping0.bydCode }
            else i) = some i
        rw [hnone]
        rfl
      · intro mapping hmap _ hsome
        cases hmap
        show (o.items.map _)[m]? = some _
        rw [List.getElem?_map, hi]
        show some (if ((batchItemsToLink rules st).any
              fun link => link.daltonCode == i.code) = true
            then { i with isLinked := true, linkedBydCode := some mapping0.bydCode }
            else i) =
          some { i with isLinked := true, linkedBydCode := some mapping0.bydCode }
        rw [hsome]
        rfl

/-- The factory catalog entry chosen as the batch target in the witnesses. -/
def demoMapping : MappingItem :=
  { bydCode := "WSA3HAC02101GH00"
    bydType := OpKind.Labor
    daltonCode := "MO006"
    description := some "BRAKE SYSTEM INSPECTION"
    vehicleSeries := some "SONG PLUS DMI"
    vehicleModel := some "SONG PLUS DMI" }

/-- Concrete batch state: both demonstration orders loaded, the SONG PLUS 2025
group active, only order XCL001's MO006 line selected, the demo catalog entry
chosen as target. -/
def demoBatchState : BatchState :=
  { rawOrders := [demoOrderBC, demoOrderBL]
    selectedBatchModelGroup := some "SONG PLUS|2025"
    selectedBatchItems := ["XCL001_MO006"]
    selectedBatchTargetCode := some demoMapping
    isBatchProcessing := false }

/-- Witness for C3: in the demo state, order XCL002's parts line (code PART99,
matching no selected code) is untouched by the successful batch link, while
XCL002's unselected MO006 line — a different order sharing the selected
code — is marked linked. -/
theorem batch_link_frame_C3_witness :
    (∃ o', (confirmBatchLink defaultBusinessRules demoBatchState true).rawOrders[1]? = some o'
      ∧ (((batchItemsToLink defaultBusinessRules demoBatchState).any
            (fun l => l.daltonCode == demoItemPart.code)) = false →
          o'.items[1]? = some demoItemPart)
      ∧ (∀ mapping, demoBatchState.selectedBatchTargetCode = some mapping →
          demoBatchState.selectedBatchItems.isEmpty = false →
          ((batchItemsToLink defaultBusinessRules demoBatchState).any
            (fun l => l.daltonCode == demoItemPart.code)) = true →
          o'.items[1]? =
            some { demoItemPart with
                   isLinked := true
                   linkedBydCode := some mapping.bydCode }))
    ∧ (∃ o', (confirmBatchLink defaultBusinessRules demoBatchState true).rawOrders[1]? = some o'
      ∧ (((batchItemsToLink defaultBusinessRules demoBatchState).any
            (fun l => l.daltonCode == demoItemMO006.code)) = false →
          o'.items[0]? = some demoItemMO006)
      ∧ (∀ mapping, demoBatchState.selectedBatchTargetCode = some mapping →
          demoBatchState.selectedBatchItems.isEmpty = false →
          ((batchItemsToLink defaultBusinessRules demoBatchState).any
            (fun l => l.daltonCode == demoItemMO006.code)) = true →
          o'.items[0]? =
            some { demoItemMO006 with
                   isLinked := true
                   linkedBydCode := some mapping.bydCode })) :=
  ⟨batch_link_frame_C3 defaultBusinessRules demoBatchState 1 1 demoOrderBL demoItemPart
      (by decide) (by decide),
   batch_link_frame_C3 defaultBusinessRules demoBatchState 1 0 demoOrderBL demoItemMO006
      (by decide) (by decide)⟩

/-! ### Transmission (`transmitOrderToPlant` detail-view revision, and
`initiateTransmission`/`confirmTransmission` of the batch-view revision) -/

/-- `canTransmit(order)`: some item linked and not already transmitted. -/
def canTransmit (order : ServiceOrder) : Bool :=
  order.items.any (fun i => i.isLinked) && !(order.status == OrderStatus.Transmitted)

/-- Outcome of the detail-view `transmitOrderToPlant()` up to the collaborator
call: the user's `confirm()` answer is the `userConfirms` argument. -/
inductive TransmitAction where
  | noOrder
  | blockedByPlaceholders (count : Nat) (sampleCode : String)
  | cancelledByUser
  | sent
deriving DecidableEq, Repr

/-- The detail-view `transmitOrderToPlant()`: orders with unlinked placeholder
items are blocked with a warning naming the count and the first offending
code, and the transmission collaborator is not called. -/
def transmitOrderToPlant (rules : List BusinessRule) (selectedOrder : Option ServiceOrder)
    (userConfirms : Bool) : TransmitAction :=
  match selectedOrder with
  | none => TransmitAction.noOrder
  | some order =>
    match order.items.filter (fun i => !i.isLinked && isPlaceholderCode rules i.code) with
    | [] => if userConfirms then TransmitAction.sent else TransmitAction.cancelledByUser
    | u :: us => TransmitAction.blockedByPlaceholders (us.length + 1) u.code

/-- Header of a `TransmissionPayload`. -/
structure PayloadHeader where
  dealerCode : String
  roNumber : String
  vin : String
  repairDate : String
  modelCode : String
deriving DecidableEq, Repr

/-- One line of the transmission payload's labor list.  The source sets the
constant `hours: 1.0`; the numeric literal is carried as the natural 1, which
is faithful because no arithmetic is ever performed on it. -/
structure LaborLine where
  lineId : Nat
  operationCode : String
  internalCode : String
  description : String
  hours : Nat
deriving DecidableEq, Repr

/-- `TransmissionPayload`. -/
structure TransmissionPayload where
  header : PayloadHeader
  laborList : List LaborLine
deriving DecidableEq, Repr

/-- `buildTransmissionPayload(order)` (api service): the payload carries only
the linked items. -/
def buildTransmissionPayload (dealerCode : String) (order : ServiceOrder) :
    TransmissionPayload :=
  let linkedItems := order.items.filter (fun i => i.isLinked)
  { header := { dealerCode := dealerCode
                roNumber := order.orderNumber
                vin := order.vin
                repairDate := order.date
                modelCode := order.modelCodeRaw }
    laborList := linkedItems.enum.map (fun p =>
      { lineId := p.fst + 1
        operationCode := jsOrOpt p.snd.linkedBydCode ""
        internalCode := p.snd.code
        description := jsOrOpt p.snd.linkedBydDescription p.snd.description
        hours := 1 }) }

/-- Outcome of the batch-view `confirmTransmission()`. -/
inductive ConfirmTransmitAction where
  | noPayload
  | transmitted
  | failed
deriving DecidableEq, Repr

/-- The batch-view `confirmTransmission()`: whatever payload was staged by
`initiateTransmission` is handed to the transmission collaborator with no
placeholder validation at all. -/
def confirmTransmission (payload : Option TransmissionPayload) (apiSuccess : Bool) :
    ConfirmTransmitAction :=
  match payload with
  | none => ConfirmTransmitAction.noPayload
  | some _ => if apiSuccess then ConfirmTransmitAction.transmitted else ConfirmTransmitAction.failed

/-- A linked oil-change line, so the order passes `canTransmit`. -/
def demoLinkedItem : ServiceOrderItem :=
  { code := "ZLAB"
    description := "CAMBIO DE ACEITE"
    isLinked := true
    linkedBydCode := some "BYD123"
    linkedBydDescription := some "OIL CHANGE SERVICE" }

/-- Failing input for C2: an order with one linked line and one unlinked
placeholder line (MO006, mandatory under the active rule). -/
def demoBlockedOrder : ServiceOrder :=
  { id := "O9"
    orderNumber := "XCL009"
    date := "2025-02-01"
    vin := "VIN-BLOCKED-9"
    modelCodeRaw := "M9"
    modelDescRaw := "SONG PLUS 2025 BC DM-I"
    year := "2025"
    status := OrderStatus.Pending
    items := [demoLinkedItem, demoItemMO006] }

/-- Claim C2, evaluated at the failing input: the order is transmittable by
`canTransmit` and still holds one unlinked placeholder item.  The detail-view
`transmitOrderToPlant` blocks it with a validation warning (count 1, code
MO006) and never calls the collaborator — as the claim requires.  The current
batch-view revision's `initiateTransmission`/`confirmTransmission` path,
however, transmits the staged payload of the same order without any
placeholder validation: the blocking required by the claim is absent on that
path. -/
theorem transmit_validation_C2 :
    canTransmit demoBlockedOrder = true
    ∧ demoBlockedOrder.items.filter
        (fun i => !i.isLinked && isPlaceholderCode defaultBusinessRules i.code)
        = [demoItemMO006]
    ∧ transmitOrderToPlant defaultBusinessRules (some demoBlockedOrder) true =
        TransmitAction.blockedByPlaceholders 1 "MO006"
    ∧ confirmTransmission
        (some (buildTransmissionPayload "DLR1" demoBlockedOrder)) true =
        ConfirmTransmitAction.transmitted := by
  decide

/-! ### AI keyword candidate scoring (`aiSuggestedCandidates`) -/

/-- The AI collaborator's analysis: a translation and extracted keywords. -/
structure AiAnalysis where
  translation : String
  keywords : List String
deriving DecidableEq, Repr

/-- A catalog entry together with its transient `matchScore`. -/
structure ScoredMapping where
  entry : MappingItem
  matchScore : Nat
deriving DecidableEq, Repr

/-- Comparator of `.sort((a, b) => b.matchScore - a.matchScore)`: descending by
score, stable on ties. -/
def scoreGE (a b : ScoredMapping) : Prop := b.matchScore ≤ a.matchScore

instance : DecidableRel scoreGE :=
  fun a b => inferInstanceAs (Decidable (b.matchScore ≤ a.matchScore))

instance : IsTotal ScoredMapping scoreGE := ⟨fun a b => Nat.le_total b.matchScore a.matchScore⟩

instance : IsTrans ScoredMapping scoreGE := ⟨fun _ _ _ h1 h2 => Nat.le_trans h2 h1⟩

/-- A separator of the description tokenizer regex `/[\s-_,.]+/`. -/
def scoreSep (c : Char) : Bool :=
  c.isWhitespace || c == '-' || c == '_' || c == ',' || c == '.'

/-- Splitting at maximal runs of separator characters, as a JavaScript
`split` on a `+`-quantified character-class regex does. -/
def splitRunsGo (p : Char → Bool) : List Char → List (List Char)
  | [] => [[]]
  | c :: cs =>
    let r := splitRunsGo p cs
    if p c then
      match cs with
      | [] => [] :: r
      | c2 :: _ => if p c2 then r else [] :: r
    else
      match r with
      | [] => [[c]]
      | t :: ts => (c :: t) :: ts

/-- `desc.split(/[\s-_,.]+/)`. -/
def descTokens (s : String) : List String :=
  (splitRunsGo scoreSep s.data).map String.mk

/-- `m.vehicleSeries?.toLowerCase() || ''` or the model field equals the
lower-cased series context. -/
def seriesMatches (series : String) (m : MappingItem) : Bool :=
  (jsOrOpt (m.vehicleSeries.map jsToLower) "" == series) ||
  (jsOrOpt (m.vehicleModel.map jsToLower) "" == series)

/-- `analysis.keywords.map(k => k.toLowerCase().trim()).filter(k => k.length > 2)`. -/
def normalizedKeywords (keywords : List String) : List String :=
  (keywords.map (fun k => jsTrim (jsToLower k))).filter (fun k => k.length > 2)

/-- The per-entry scoring loop of `aiSuggestedCandidates`: for every keyword,
+15 for a whole-token match (else +8 for a substring match), +5 for a
substring of the factory code, +5 when a keyword longer than 4 characters is a
prefix of the description. -/
def entryScore (keywords : List String) (m : MappingItem) : Nat :=
  let desc := jsOrOpt (m.description.map jsToLower) ""
  let code := jsToLower m.bydCode
  let toks := descTokens desc
  keywords.foldl (fun score kw =>
    let score1 := if toks.contains kw then score + 15
                  else if jsIncludes desc kw then score + 8 else score
    let score2 := if jsIncludes code kw then score1 + 5 else score1
    if kw.length > 4 && jsStartsWith desc kw then score2 + 5 else score2) 0

/-- `aiSuggestedCandidates` computed signal: guard on analysis, series context
and normalized keywords; score the series-matching catalog entries; keep the
positive scores; sort descending by score (stable) and cap to 20. -/
def aiSuggestedCandidates (analysis : Option AiAnalysis) (targetBydSeries : String)
    (mappings : List MappingItem) : List ScoredMapping :=
  let series := jsToLower targetBydSeries
  match analysis with
  | none => []
  | some a =>
    if series = "" then []
    else
      let keywords := normalizedKeywords a.keywords
      if keywords.isEmpty then []
      else
        let candidates := mappings.foldl (fun acc m =>
          if seriesMatches series m then
            let score := entryScore keywords m
            if 0 < score then acc ++ [{ entry := m, matchScore := score }] else acc
          else acc) []
        (List.insertionSort scoreGE candidates).take 20

/-- Modelled from the claim wording of the keyword-scored ranking: the points
one hint keyword awards an entry — +15 for a whole-token match of the
description, else +8 for a substring match; +5 when it occurs in the factory
code; a +5 bonus when the description starts with the keyword and the keyword
is longer than 4 characters. -/
def keywordPoints (kw : String) (m : MappingItem) : Nat :=
  (if (descTokens (jsOrOpt (m.description.map jsToLower) "")).contains kw then 15
   else if jsIncludes (jsOrOpt (m.description.map jsToLower) "") kw then 8 else 0)
  + (if jsIncludes (jsToLower m.bydCode) kw then 5 else 0)
  + (if kw.length > 4 && jsStartsWith (jsOrOpt (m.description.map jsToLower) "") kw then 5
     else 0)

/-- Points summed over the hint keywords. -/
def specEntryScore (keywords : List String) (m : MappingItem) : Nat :=
  (keywords.map (fun kw => keywordPoints kw m)).sum

/-- The ranking pipeline as the claim words it: score every series-matching
entry by the summed keyword points, discard the zero scores, sort descending
by score breaking ties by catalog iteration order (stable sort), cap at 20. -/
def specKeywordRanking (analysis : Option AiAnalysis) (targetBydSeries : String)
    (mappings : List MappingItem) : List ScoredMapping :=
  let series := jsToLower targetBydSeries
  match analysis with
  | none => []
  | some a =>
    if series = "" then []
    else
      let keywords := normalizedKeywords a.keywords
      if keywords.isEmpty then []
      else
        (List.insertionSort scoreGE
          ((mappings.filter (seriesMatches series)).filterMap (fun m =>
            if 0 < specEntryScore keywords m then
              some { entry := m, matchScore := specEntryScore keywords m }
            else none))).take 20

/-- The accumulated scoring loop equals the accumulator plus the summed
per-keyword points. -/
theorem foldl_score_step (desc code : String) (toks : List String) :
    ∀ (kws : List String) (acc : Nat),
      kws.foldl (fun score kw =>
        let score1 := if toks.contains kw then score + 15
                      else if jsIncludes desc kw then score + 8 else score
        let score2 := if jsIncludes code kw then score1 + 5 else score1
        if kw.length > 4 && jsStartsWith desc kw then score2 + 5 else score2) acc
      = acc + (kws.map (fun kw =>
          (if toks.contains kw then 15 else if jsIncludes desc kw then 8 else 0)
          + (if jsIncludes code kw then 5 else 0)
          + (if kw.length > 4 && jsStartsWith desc kw then 5 else 0))).sum := by
  intro kws
  induction kws with
  | nil => intro acc; simp
  | cons kw kws ih =>
    intro acc
    simp only [List.foldl_cons, List.map_cons, List.sum_cons]
    rw [ih]
    by_cases h1 : toks.contains kw <;> by_cases h2 : jsIncludes desc kw <;>
      by_cases h3 : jsIncludes code kw <;>
        by_cases h4 : kw.length > 4 && jsStartsWith desc kw <;>
          simp only [h1, h2, h3, h4, if_true, if_false, Bool.false_eq_true, if_neg] <;>
          simp [h1, h2, h3, h4] <;> omega

/-- The loop-accumulated entry score equals the claim's summed keyword
points. -/
theorem entryScore_eq_specEntryScore (keywords : List String) (m : MappingItem) :
    entryScore keywords m = specEntryScore keywords m := by
  simp only [entryScore, specEntryScore, keywordPoints]
  rw [foldl_score_step]
  simp

/-- The candidate-collecting loop (push on positive score) equals the
filter-then-filterMap form of the claim. -/
theorem foldl_push_filterMap (series : String) (keywords : List String) :
    ∀ (ms : List MappingItem) (acc : List ScoredMapping),
      ms.foldl (fun acc m =>
        if seriesMatches series m then
          if 0 < entryScore keywords m then
            acc ++ [{ entry := m, matchScore := entryScore keywords m }]
          else acc
        else acc) acc
      = acc ++ (ms.filter (seriesMatches series)).filterMap (fun m =>
          if 0 < specEntryScore keywords m then
            some { entry := m, matchScore := specEntryScore keywords m }
          else none) := by
  intro ms
  induction ms with
  | nil => intro acc; simp
  | cons m ms ih =>
    intro acc
    have he := entryScore_eq_specEntryScore keywords m
    simp only [List.foldl_cons]
    by_cases hp : seriesMatches series m
    · by_cases hs : 0 < specEntryScore keywords m
      · rw [if_pos hp, if_pos (he ▸ hs), ih]
        simp [List.filter_cons, hp, List.filterMap_cons, hs, he, List.append_assoc]
      · rw [if_pos hp, if_neg (he ▸ hs), ih]
        simp [List.filter_cons, hp, List.filterMap_cons, hs, he]
    · rw [if_neg hp, ih]
      simp [List.filter_cons, hp]

/-- Claim C5: the keyword-scored ranking equals the claim's pipeline
(per-keyword +15 whole-token / +8 substring / +5 factory-code / +5 long-prefix
bonus points summed per entry over the series-matching catalog entries, zero
scores discarded, stable descending sort, top 20); moreover the output is
sorted descending by score, holds at most 20 entries, and every returned
candidate has positive score. -/
theorem keyword_ranking_C5 :
    ∀ (analysis : Option AiAnalysis) (targetBydSeries : String)
      (mappings : List MappingItem),
      aiSuggestedCandidates analysis targetBydSeries mappings =
        specKeywordRanking analysis targetBydSeries mappings
      ∧ List.Pairwise scoreGE (aiSuggestedCandidates analysis targetBydSeries mappings)
      ∧ (aiSuggestedCandidates analysis targetBydSeries mappings).length ≤ 20
      ∧ ∀ c ∈ aiSuggestedCandidates analysis targetBydSeries mappings, 0 < c.matchScore := by
  intro analysis t ms
  have heq : aiSuggestedCandidates analysis t ms = specKeywordRanking analysis t ms := by
    cases analysis with
    | none => rfl
    | some a =>
      simp only [aiSuggestedCandidates, specKeywordRanking]
      by_cases hserie : jsToLower t = ""
      · simp [hserie]
      · simp only [if_neg hserie]
        by_cases hkw : (normalizedKeywords a.keywords).isEmpty
        · simp [hkw]
        · simp only [hkw, Bool.false_eq_true, if_false]
          rw [foldl_push_filterMap]
          rfl
  refine ⟨heq, ?_, ?_, ?_⟩
  · rw [heq]
    cases analysis with
    | none => exact List.Pairwise.nil
    | some a =>
      simp only [specKeywordRanking]
      by_cases hserie : jsToLower t = ""
      · simp [hserie]
      · simp only [if_neg hserie]
        by_cases hkw : (normalizedKeywords a.keywords).isEmpty
        · simp [hkw]
        · simp only [hkw, Bool.false_eq_true, if_false]
          exact ((List.sorted_insertionSort scoreGE _).sublist (List.take_sublist _ _))
  · rw [heq]
    cases analysis with
    | none => simp [specKeywordRanking]
    | some a =>
      simp only [specKeywordRanking]
      by_cases hserie : jsToLower t = ""
      · simp [hserie]
      · simp only [if_neg hserie]
        by_cases hkw : (normalizedKeywords a.keywords).isEmpty
        · simp [hkw]
        · simp only [hkw, Bool.false_eq_true, if_false]
          exact List.length_take_le _ _
  · rw [heq]
    intro c hc
    cases analysis with
    | none => cases hc
    | some a =>
      simp only [specKeywordRanking] at hc
      by_cases hserie : jsToLower t = ""
      · rw [if_pos hserie] at hc
        cases hc
      · rw [if_neg hserie] at hc
        by_cases hkw : (normalizedKeywords a.keywords).isEmpty
        · simp [hkw] at hc
        · simp only [hkw, Bool.false_eq_true, if_false] at hc
          have hc2 := (List.take_sublist _ _).mem hc
          have hc3 := (List.perm_insertionSort scoreGE _).mem_iff.mp hc2
          obtain ⟨m, _, hm⟩ := List.mem_filterMap.mp hc3
          by_cases hs : 0 < specEntryScore (normalizedKeywords a.keywords) m
          · rw [if_pos hs] at hm
            cases hm
            exact hs
          · rw [if_neg hs] at hm
            cases hm

/-- The single group the demonstration orders produce, written out. -/
def demoGroupValue : ModelGroup :=
  { groupId := "SONG PLUS|2025"
    modelName := "SONG PLUS"
    year := "2025"
    count := 2
    items := [{ orderId := "O1", orderNumber := "XCL001", vin := "VIN-BC-1",
                item := demoItemMO006 },
              { orderId := "O2", orderNumber := "XCL002", vin := "VIN-BL-2",
                item := demoItemMO006 }] }

/-- Witness for C4 at the two demonstration orders: the partition permutation,
the count invariant of the concrete produced group, the count sum, and the
sortedness. -/
theorem grouping_partition_C4_witness :
    (joinItems (pendingItemsByModel defaultBusinessRules [demoOrderBC, demoOrderBL])).Perm
      (relevantTuples defaultBusinessRules [demoOrderBC, demoOrderBL])
    ∧ (demoGroupValue.count = demoGroupValue.items.length ∧ 0 < demoGroupValue.count)
    ∧ ((pendingItemsByModel defaultBusinessRules [demoOrderBC, demoOrderBL]).map
        (fun g => g.count)).sum
      = (relevantTuples defaultBusinessRules [demoOrderBC, demoOrderBL]).length
    ∧ List.Pairwise groupLE
        (pendingItemsByModel defaultBusinessRules [demoOrderBC, demoOrderBL]) :=
  have h := grouping_partition_C4 defaultBusinessRules [demoOrderBC, demoOrderBL]
  ⟨h.1, h.2.1 demoGroupValue (by decide), h.2.2.1, h.2.2.2⟩

/-- The AI analysis of the witness scenario. -/
def demoAnalysis : AiAnalysis :=
  { translation := "BRAKE INSPECTION"
    keywords := ["BRAKE", "INSPECTION"] }

/-- Witness for C5: with hints BRAKE and INSPECTION against the demo catalog
entry (description "BRAKE SYSTEM INSPECTION"), the ranking pipelines agree and
the single returned candidate scores 15 + 5 + 15 = 35 > 0. -/
theorem keyword_ranking_C5_witness :
    aiSuggestedCandidates (some demoAnalysis) "SONG PLUS DMI" [demoMapping] =
      specKeywordRanking (some demoAnalysis) "SONG PLUS DMI" [demoMapping]
    ∧ 0 < ({ entry := demoMapping, matchScore := 35 } : ScoredMapping).matchScore :=
  have h := keyword_ranking_C5 (some demoAnalysis) "SONG PLUS DMI" [demoMapping]
  ⟨h.1, h.2.2.2 { entry := demoMapping, matchScore := 35 } (by decide)⟩

/-! ### Tabular import (`processFile`, `src/components/mapping-linker.component.ts`) -/

/-- One parsed spreadsheet row, keyed by the fixed BYD export headers that
the importer reads.  A `none` field is a cell absent from the row (JavaScript
`undefined`). -/
structure ExcelRow where
  repairItemCode : Option String
  repairItemName : Option String
  claimLaborHourCode : Option String
  mainCategoryName : Option String
  batteryPackRepairOrNot : Option String
  vehicleCode : Option String
  projectVehicleSeries : Option String
  secondaryClassificationName : Option String
  standardLaborHours : Option String
  dispatchLaborHours : Option String
deriving DecidableEq, Repr

/-- A mapping record produced by the import, before id/status assignment.  The
two hours cells are carried raw: the source applies `parseFloat`, a numeric
boundary conversion that never influences whether a record is produced. -/
structure MappingDraft where
  bydCode : String
  bydType : OpKind
  daltonCode : String
  description : String
  vehicleModel : String
  vehicleSeries : String
  mainCategory : String
  subCategory : String
  standardHoursRaw : Option String
  dispatchHoursRaw : Option String
  isBatteryRepair : Bool
  modelYear : String
deriving DecidableEq, Repr

/-- Whether the row carries a truthy factory-code cell
(`row['Repair item code']`). -/
def hasCodeCell (row : ExcelRow) : Bool :=
  match row.repairItemCode with
  | none => false
  | some s => s != ""

/-- The per-row transformation of `processFile`: rows without a truthy
`Repair item code` cell produce nothing; otherwise the row is cleaned and
classified (Repair when the battery flag is literally "yes" or the category or
description mentions "repair").  The description cell is read through a
defaulted access; for the rows this claim quantifies over the function is not
reached at all. -/
def rowToDraft (row : ExcelRow) : Option MappingDraft :=
  match row.repairItemCode with
  | none => none
  | some bydCode =>
    if bydCode = "" then none
    else
      let desc := jsOrOpt row.repairItemName ""
      let dalton := jsOrOpt row.claimLaborHourCode bydCode
      let catName := jsToLower (jsOrOpt row.mainCategoryName "")
      let isBattery := jsToLower (jsStringOpt row.batteryPackRepairOrNot) == "yes"
      let type := if isBattery || jsIncludes catName "repair"
                     || jsIncludes (jsToLower desc) "repair"
                  then OpKind.Repair else OpKind.Labor
      some { bydCode := jsTrim bydCode
             bydType := type
             daltonCode := jsTrim dalton
             description := jsTrim desc
             vehicleModel := jsTrim (jsOrOpt row.vehicleCode "")
             vehicleSeries := jsTrim (jsOrOpt row.projectVehicleSeries "")
             mainCategory := jsTrim (jsOrOpt row.mainCategoryName "")
             subCategory := jsTrim (jsOrOpt row.secondaryClassificationName "")
             standardHoursRaw := row.standardLaborHours
             dispatchHoursRaw := row.dispatchLaborHours
             isBatteryRepair := isBattery
             modelYear := "2025" }

/-- Outcome of the pure core of `processFile`: either the preview is opened
with the produced mapping records, or the import fails and the user is shown
the warning naming the missing mandatory column
(`'No se encontraron columnas válidas (Repair item code).'`), with no records
produced and no preview opened. -/
inductive ImportOutcome where
  | preview (mappings : List MappingDraft)
  | columnFailure (missingField : String)
deriving DecidableEq, Repr

/-- The row-processing core of `processFile`. -/
def processFileRows (rows : List ExcelRow) : ImportOutcome :=
  let newMappings := rows.filterMap rowToDraft
  if 0 < newMappings.length then ImportOutcome.preview newMappings
  else ImportOutcome.columnFailure "Repair item code"

/-- Claim C10: when no row of the imported file carries the mandatory
factory-code column, the import fails with the column-detection error naming
the missing field (`Repair item code`), and no mapping records are produced
from the file. -/
theorem import_no_code_column_C10 :
    ∀ rows : List ExcelRow,
      (∀ row ∈ rows, hasCodeCell row = false) →
      processFileRows rows = ImportOutcome.columnFailure "Repair item code"
      ∧ rows.filterMap rowToDraft = [] := by
  intro rows h
  have hdrafts : rows.filterMap rowToDraft = [] := by
    induction rows with
    | nil => rfl
    | cons row rest ih =>
      have hrow : rowToDraft row = none := by
        have hc := h row (List.mem_cons_self row rest)
        rw [hasCodeCell] at hc
        rw [rowToDraft]
        cases hcode : row.repairItemCode with
        | none => rfl
        | some s =>
          rw [hcode] at hc
          have hs : s = "" := by
            by_contra hne
            simp [hne] at hc
          subst hs
          rfl
      rw [List.filterMap_cons, hrow]
      exact ih (fun r hr => h r (List.mem_cons_of_mem _ hr))
  refine ⟨?_, hdrafts⟩
  rw [processFileRows, hdrafts]
  rfl

/-- Witness for C10: a two-row file — one row with every cell absent, one with
only descriptive cells — fails with the column-detection outcome and produces
no records. -/
theorem import_no_code_column_C10_witness :
    processFileRows
        [{ repairItemCode := none, repairItemName := none, claimLaborHourCode := none,
           mainCategoryName := none, batteryPackRepairOrNot := none, vehicleCode := none,
           projectVehicleSeries := none, secondaryClassificationName := none,
           standardLaborHours := none, dispatchLaborHours := none },
         { repairItemCode := some "", repairItemName := some "BRAKE PAD REPLACEMENT",
           claimLaborHourCode := none, mainCategoryName := some "Maintenance",
           batteryPackRepairOrNot := some "no", vehicleCode := some "SONG PLUS DMI",
           projectVehicleSeries := some "SONG PLUS", secondaryClassificationName := none,
           standardLaborHours := some "1.5", dispatchLaborHours := none }] =
      ImportOutcome.columnFailure "Repair item code"
    ∧ List.filterMap rowToDraft
        [{ repairItemCode := none, repairItemName := none, claimLaborHourCode := none,
           mainCategoryName := none, batteryPackRepairOrNot := none, vehicleCode := none,
           projectVehicleSeries := none, secondaryClassificationName := none,
           standardLaborHours := none, dispatchLaborHours := none },
         { repairItemCode := some "", repairItemName := some "BRAKE PAD REPLACEMENT",
           claimLaborHourCode := none, mainCategoryName := some "Maintenance",
           batteryPackRepairOrNot := some "no", vehicleCode := some "SONG PLUS DMI",
           projectVehicleSeries := some "SONG PLUS", secondaryClassificationName := none,
           standardLaborHours := some "1.5", dispatchLaborHours := none }] = [] :=
  import_no_code_column_C10 _ (by decide)
